import Mathlib

set_option maxHeartbeats 1000000

/-! Shallow embedding of the iromo storage/command layer
    (src/data_manager.py, src/undo_manager.py, src/commands/topic_commands.py).

    The SQLite database of a collection is modelled as explicit lists of rows
    (tables `topics` and `extractions`), the per-topic body files as an
    association list from file uuid to content.  Timestamps are abstract clock
    ticks (Nat); the nondeterministic parts of the code (uuid4, datetime.now)
    are passed in as explicit parameters.  SQL three-valued logic matters in two
    places and is modelled explicitly: a comparison `col = ?` or `col >= ?`
    whose parameter or column value is NULL is never satisfied. -/

/-- A row of the `topics` table (see migrations usage in data_manager.py:
    columns id, parent_id, title, text_file_uuid, created_at, updated_at,
    display_order).  `display_order` is nullable (create_topic inserts NULL
    when no order is supplied). -/
structure Topic where
  id : String
  parent_id : Option String
  title : String
  text_file_uuid : String
  created_at : Nat
  updated_at : Nat
  display_order : Option Int
  deriving Repr, DecidableEq

/-- A row of the `extractions` table (data_manager.py create_extraction):
    columns id, parent_topic_id, child_topic_id, parent_text_start_char,
    parent_text_end_char. -/
structure Extraction where
  id : String
  parent_topic_id : String
  child_topic_id : String
  start_char : Int
  end_char : Int
  deriving Repr, DecidableEq

/-- The observable state of one collection: the two database tables plus the
    text_files directory (file uuid ↦ file content). -/
structure Collection where
  topics : List Topic
  extractions : List Extraction
  files : List (String × String)
  deriving Repr, DecidableEq

/-- Python truthiness of an optional string argument (`if x:` / `if not x:`
    in data_manager.py): None and the empty string are falsy. -/
def pyTruthyStr : Option String → Bool
  | none => false
  | some s => !(s == "")

/-- Models Python `x if x else d` for an optional string `x`. -/
def optStrElse (o : Option String) (d : String) : String :=
  match o with
  | none => d
  | some s => if s == "" then d else s

/-- Membership test on a list of strings, used to model `IN`-style checks and
    injected failure sets. -/
def strMem (l : List String) (x : String) : Bool :=
  l.any (fun y => x == y)

/-- Writing a body file (`open(path, "w")` then `write`): creates the file or
    replaces its content. -/
def fsWrite (files : List (String × String)) (uuid content : String) : List (String × String) :=
  if files.any (fun kv => kv.1 == uuid) then
    files.map (fun kv => if kv.1 == uuid then (kv.1, content) else kv)
  else
    files ++ [(uuid, content)]

/-- `os.remove` on a body file path. -/
def fsRemove (files : List (String × String)) (uuid : String) : List (String × String) :=
  files.filter (fun kv => !(kv.1 == uuid))

/-- Reading a body file; `none` models the file being absent
    (`os.path.exists` false / FileNotFoundError). -/
def fsRead (files : List (String × String)) (uuid : String) : Option String :=
  (files.find? (fun kv => kv.1 == uuid)).map (fun kv => kv.2)

/-- INITIAL_TITLE_LENGTH from data_manager.py. -/
def INITIAL_TITLE_LENGTH : Nat := 70

/-- Splitting a character list at newline characters (models str.splitlines
    for newline-separated text); the accumulator holds the current line in
    reverse. -/
def splitLinesAux : List Char → List Char → List (List Char)
  | [], acc => [acc.reverse]
  | c :: rest, acc =>
    if c = '\n' then acc.reverse :: splitLinesAux rest []
    else splitLinesAux rest (c :: acc)

/-- Python `line.strip() == ""`: the line consists of whitespace only. -/
def isBlankChars (cs : List Char) : Bool :=
  cs.all (fun c => c == ' ' || c == '\t' || c == '\n' || c == '\r')

/-- DataManager._generate_initial_title: first non-blank line of the content
    (Python splitlines is modelled by splitting on newline), truncated to
    INITIAL_TITLE_LENGTH characters with an ellipsis.  Empty content gives
    "Untitled Topic".  Note: this helper exists in the source but is never
    called by create_topic. -/
def generate_initial_title (text_content : String) : String :=
  if text_content == "" then "Untitled Topic"
  else
    let lines := (splitLinesAux text_content.data []).filter (fun cs => !(isBlankChars cs))
    let first_meaningful_line :=
      match lines with
      | [] => text_content.data
      | l :: _ => l
    if INITIAL_TITLE_LENGTH < first_meaningful_line.length then
      String.mk (first_meaningful_line.take INITIAL_TITLE_LENGTH) ++ "..."
    else String.mk first_meaningful_line

/-- Models `dt.datetime.now().strftime("Topic %Y-%m-%d %H:%M:%S")` in
    create_topic: the default title is "Topic " followed by a rendering of the
    current clock value.  The clock is an abstract tick, rendered via toString;
    the salient property preserved from the source is that the default title is
    derived from the clock (and always begins with "Topic "), not from the body
    text. -/
def strftimeTopicTitle (now : Nat) : String :=
  "Topic " ++ toString now

/-- The keyword arguments of DataManager.create_topic. -/
structure CreateArgs where
  text_content : String
  parent_id : Option String
  custom_title : Option String
  topic_id : Option String
  text_file_uuid : Option String
  created_at : Option Nat
  updated_at : Option Nat
  display_order : Option Int
  deriving Repr, DecidableEq

/-- DataManager.create_topic (data_manager.py lines 189-248).
    `mintedTopicId` / `mintedFileUuid` stand for the two `uuid.uuid4()` calls
    and `now` for `datetime.now()`.  Steps, in source order: choose final ids
    (Python truthiness on the optional arguments), choose the title (a clock
    timestamp string when no custom title is given), write the body file, then
    INSERT the row.  The INSERT fails (IntegrityError) when the chosen topic id
    already exists (PRIMARY KEY); on failure the transaction is rolled back
    (the INSERT was the only pending statement), the freshly written body file
    is removed only when the call minted the file uuid itself
    (`if os.path.exists(text_file_path) and not text_file_uuid`), and None is
    returned. -/
def create_topic (st : Collection) (a : CreateArgs) (mintedTopicId mintedFileUuid : String)
    (now : Nat) : Option String × Collection :=
  let final_topic_id := optStrElse a.topic_id mintedTopicId
  let final_text_file_uuid := optStrElse a.text_file_uuid mintedFileUuid
  let final_created_at := a.created_at.getD now
  let final_updated_at := a.updated_at.getD now
  let title := match a.custom_title with
    | some t => if t == "" then strftimeTopicTitle now else t
    | none => strftimeTopicTitle now
  let files1 := fsWrite st.files final_text_file_uuid a.text_content
  if st.topics.any (fun t => t.id == final_topic_id) then
    let files2 :=
      if (fsRead files1 final_text_file_uuid).isSome && !(pyTruthyStr a.text_file_uuid) then
        fsRemove files1 final_text_file_uuid
      else files1
    (none, { topics := st.topics, extractions := st.extractions, files := files2 })
  else
    (some final_topic_id,
      { topics := st.topics ++
          [{ id := final_topic_id, parent_id := a.parent_id, title := title,
             text_file_uuid := final_text_file_uuid, created_at := final_created_at,
             updated_at := final_updated_at, display_order := a.display_order }],
        extractions := st.extractions,
        files := files1 })

/-- DataManager.get_topic_details: SELECT ... FROM topics WHERE id = ?,
    fetchone. -/
def get_topic_details (st : Collection) (topic_id : String) : Option Topic :=
  st.topics.find? (fun t => t.id == topic_id)

/-- Insertion step for the ORDER BY parent_text_start_char sort. -/
def insertByStart (e : Extraction) : List Extraction → List Extraction
  | [] => [e]
  | x :: xs => if e.start_char ≤ x.start_char then e :: x :: xs else x :: insertByStart e xs

/-- Sorting a list of extraction rows by start_char (models SQL ORDER BY). -/
def sortByStart : List Extraction → List Extraction
  | [] => []
  | x :: xs => insertByStart x (sortByStart xs)

/-- DataManager.get_extractions_for_parent: SELECT ... FROM extractions WHERE
    parent_topic_id = ? ORDER BY parent_text_start_char. -/
def get_extractions_for_parent (st : Collection) (parent_topic_id : String) : List Extraction :=
  sortByStart (st.extractions.filter (fun e => e.parent_topic_id == parent_topic_id))

/-- SQL comparison `parent_id = ?` where the bound parameter may be NULL
    (Python None): with a NULL parameter the comparison is never satisfied;
    a NULL column value also never satisfies it. -/
def sqlParentMatch (col : Option String) (param : Option String) : Bool :=
  match param with
  | none => false
  | some p => col == some p

/-- SQL comparison `display_order >= ?` against an integer parameter: a NULL
    column value never satisfies it. -/
def sqlOrderGe (col : Option Int) (param : Int) : Bool :=
  match col with
  | none => false
  | some x => param ≤ x

/-- SQL comparison `display_order > ?` where both the column and the bound
    parameter may be NULL: never satisfied if either side is NULL. -/
def sqlOrderGtParam (col : Option Int) (param : Option Int) : Bool :=
  match col, param with
  | some x, some p => p < x
  | _, _ => false

/-- The UPDATE of the moved row in move_topic: SET parent_id = ?,
    display_order = ?, updated_at = ? WHERE id = ?. -/
def moveUpd (topic_id : String) (new_parent_id : Option String) (new_display_order : Int)
    (now : Nat) (t : Topic) : Topic :=
  if t.id == topic_id then
    { t with parent_id := new_parent_id, display_order := some new_display_order,
             updated_at := now }
  else t

/-- The sibling shift at the new parent in move_topic: SET display_order =
    display_order + 1 WHERE parent_id = ? AND id != ? AND display_order >= ?. -/
def moveShiftNew (topic_id : String) (new_parent_id : Option String)
    (new_display_order : Int) (t : Topic) : Topic :=
  if sqlParentMatch t.parent_id new_parent_id && !(t.id == topic_id) &&
     sqlOrderGe t.display_order new_display_order then
    { t with display_order := t.display_order.map (fun x => x + 1) }
  else t

/-- The sibling shift at the old parent in move_topic: SET display_order =
    display_order - 1 WHERE parent_id = ? AND display_order > ?. -/
def moveShiftOld (old_parent_id : Option String) (old_display_order : Option Int)
    (t : Topic) : Topic :=
  if sqlParentMatch t.parent_id old_parent_id &&
     sqlOrderGtParam t.display_order old_display_order then
    { t with display_order := t.display_order.map (fun x => x - 1) }
  else t

/-- DataManager.move_topic (data_manager.py lines 591-645).  In source order:
    look up the topic (rollback and False if absent); UPDATE the topic's
    parent_id, display_order, updated_at; shift display_order up by one for the
    new parent's other children at or after the target slot; if the parent
    changed (Python `!=` on the two optional ids), shift display_order down by
    one for the old parent's children after the vacated slot; commit.  There is
    no ancestry/cycle check anywhere. -/
def move_topic (st : Collection) (topic_id : String) (new_parent_id : Option String)
    (new_display_order : Int) (now : Nat) : Bool × Collection :=
  match st.topics.find? (fun t => t.id == topic_id) with
  | none => (false, st)
  | some cur =>
    let topics1 := st.topics.map (moveUpd topic_id new_parent_id new_display_order now)
    let topics2 := topics1.map (moveShiftNew topic_id new_parent_id new_display_order)
    let topics3 :=
      if cur.parent_id ≠ new_parent_id then
        topics2.map (moveShiftOld cur.parent_id cur.display_order)
      else topics2
    (true, { topics := topics3, extractions := st.extractions, files := st.files })

/-- The list of (deleted_topic_id, original_parent_id) pairs accumulated by the
    recursive delete. -/
abbrev DelInfo : Type := List (String × Option String)

/-- Whether an extraction row touches the given topic id, i.e. satisfies
    `parent_topic_id = ? OR child_topic_id = ?`. -/
def extrTouches (tid : String) (e : Extraction) : Bool :=
  e.parent_topic_id == tid || e.child_topic_id == tid

/-- Sequential processing of a list of child ids by a child-deleting function,
    threading the connection state and aborting on the first failure (the
    `for child_id in children_ids` loop of _delete_topic_recursive). -/
def recDelList (f : String → Collection → Option DelInfo × Collection) :
    List String → Collection → Option DelInfo × Collection
  | [], st => (some [], st)
  | c :: cs, st =>
    match f c st with
    | (none, st') => (none, st')
    | (some i, st') =>
      match recDelList f cs st' with
      | (none, st'') => (none, st'')
      | (some is, st'') => (some (i ++ is), st'')

/-- DataManager._delete_topic_recursive (data_manager.py lines 453-514),
    parameterised by a fuel bound standing for Python's recursion limit (fuel
    exhaustion models RecursionError, which the caller's `except` turns into a
    failed, rolled-back delete) and by `failSet`, the set of topic ids whose
    `DELETE FROM topics` statement raises a database error (the
    `except sqlite3.Error` path).  In source order for one topic: fetch the
    row (absent topic is a successful no-op); recurse into the children listed
    at this moment, aborting on failure; DELETE all extractions whose parent or
    child is this topic; DELETE the topic row (rowcount 0 means the topic
    disappeared while its children were processed, which ends this call without
    touching its file); os.remove the body file; record
    (topic_id, original_parent_id).  File removals happen immediately, inside
    the still-open transaction. -/
def recDel : Nat → List String → String → Collection → Option DelInfo × Collection
  | 0, _, _, st => (none, st)
  | fuel + 1, failSet, tid, st =>
    match st.topics.find? (fun t => t.id == tid) with
    | none => (some [], st)
    | some td =>
      let childIds := (st.topics.filter (fun t => t.parent_id == some tid)).map (fun t => t.id)
      match recDelList (fun c s => recDel fuel failSet c s) childIds st with
      | (none, st1) => (none, st1)
      | (some childInfo, st1) =>
        let st2 : Collection :=
          { topics := st1.topics,
            extractions := st1.extractions.filter (fun e => !(extrTouches tid e)),
            files := st1.files }
        if strMem failSet tid then (none, st2)
        else if st2.topics.any (fun t => t.id == tid) then
          (some (childInfo ++ [(tid, td.parent_id)]),
            { topics := st2.topics.filter (fun t => !(t.id == tid)),
              extractions := st2.extractions,
              files := st2.files.filter (fun kv => !(kv.1 == td.text_file_uuid)) })
        else (some childInfo, st2)

/-- DataManager.delete_topic (data_manager.py lines 517-552): BEGIN, run the
    recursive delete, COMMIT on success.  On failure the transaction is rolled
    back, which restores the topics and extractions tables but not the body
    files already removed from disk (os.remove is not transactional). -/
def delete_topic (failSet : List String) (topic_id : String) (st : Collection) :
    Bool × Collection :=
  match recDel (st.topics.length + 1) failSet topic_id st with
  | (some _, st') => (true, st')
  | (none, st') =>
    (false, { topics := st.topics, extractions := st.extractions, files := st'.files })

/-- Comparison used by `ORDER BY display_order` over a nullable column:
    NULL rows sort first in SQLite. -/
def leDisplayOrder (a b : Topic) : Bool :=
  match a.display_order, b.display_order with
  | none, _ => true
  | some _, none => false
  | some x, some y => x ≤ y

/-- Insertion step for sorting children by display_order. -/
def insertByOrder (t : Topic) : List Topic → List Topic
  | [] => [t]
  | x :: xs => if leDisplayOrder t x then t :: x :: xs else x :: insertByOrder t xs

/-- Sorting sibling rows by display_order (models SQL ORDER BY display_order). -/
def sortByOrder : List Topic → List Topic
  | [] => []
  | x :: xs => insertByOrder x (sortByOrder xs)

/-- DataManager.get_topic_and_all_descendants_details together with
    _get_topic_and_descendants_recursive (data_manager.py lines 647-687):
    pre-order traversal collecting each topic row of the subtree; children are
    visited in display_order.  Note the SELECT list: it contains the seven
    topic columns and nothing else — in particular no body content. -/
def collectSubtree : Nat → Collection → String → List Topic
  | 0, _, _ => []
  | fuel + 1, st, tid =>
    match st.topics.find? (fun t => t.id == tid) with
    | none => []
    | some td =>
      let children := sortByOrder (st.topics.filter (fun t => t.parent_id == some tid))
      td :: (children.map (fun c => collectSubtree fuel st c.id)).flatten

/-- The de-duplication by id performed in DeleteMultipleTopicsCommand.execute
    (`seen_ids`). -/
def dedupById (ts : List Topic) : List Topic :=
  ts.foldl (fun acc t => if acc.any (fun u => u.id == t.id) then acc else acc ++ [t]) []

/-- DeleteMultipleTopicsCommand.execute (topic_commands.py lines 240-305):
    collect the pre-order details of every selected subtree, de-duplicate by
    id, then call DataManager.delete_topic for each selected id that occurs in
    the collected data.  Returns the captured undo data together with the new
    collection state. -/
def delCmdExecute (st : Collection) (topIds : List String) : List Topic × Collection :=
  let collected := (topIds.map (fun i => collectSubtree (st.topics.length + 1) st i)).flatten
  let data := dedupById collected
  let st' := topIds.foldl
    (fun s i => if data.any (fun t => t.id == i) then (delete_topic [] i s).2 else s) st
  (data, st')

/-- DeleteMultipleTopicsCommand.undo (topic_commands.py lines 307-337): for
    each captured topic record, in captured order, call create_topic with the
    original id, parent, title, file uuid, timestamps and display order.  The
    body text passed is `topic_data.get('content', '')`; the captured records
    have no 'content' key (see collectSubtree), so the empty string is always
    written.  No extraction record is recreated. -/
def delCmdUndo (data : List Topic) (st : Collection) (now : Nat) : Collection :=
  data.foldl (fun s t =>
    (create_topic s
      { text_content := "", parent_id := t.parent_id, custom_title := some t.title,
        topic_id := some t.id, text_file_uuid := some t.text_file_uuid,
        created_at := some t.created_at, updated_at := some t.updated_at,
        display_order := t.display_order } "unused-mint" "unused-mint" now).2) st

/-- `b` is (the id of) a proper descendant of the topic with id `a` in the
    given topics table: there is a chain of parent_id links from `b` up to
    `a`. -/
inductive IsDescendant (topics : List Topic) : String → String → Prop
  | child (t : Topic) (a : String) (ht : t ∈ topics) (hp : t.parent_id = some a) :
      IsDescendant topics a t.id
  | step (t : Topic) (a b : String) (h : IsDescendant topics a b) (ht : t ∈ topics)
      (hp : t.parent_id = some b) : IsDescendant topics a t.id

/-- The sibling-order invariant of the spec: for every parent key (including
    the NULL root), the display_order values of the topics under that parent
    contain no duplicates. -/
def siblingOrdersDistinct (topics : List Topic) : Prop :=
  ∀ p : Option String,
    ((topics.filter (fun t => t.parent_id == p)).map (fun t => t.display_order)).Nodup

/-- An undo-manager command as seen by UndoManager: an identifier plus whether
    its execute/undo/redo calls raise. -/
structure UMCmd where
  cid : Nat
  execOk : Bool
  undoOk : Bool
  redoOk : Bool
  deriving Repr, DecidableEq

/-- The two stacks of UndoManager. -/
structure UMState where
  undoStack : List UMCmd
  redoStack : List UMCmd
  deriving Repr, DecidableEq

/-- UndoManager.execute_command (undo_manager.py lines 40-58): run
    cmd.execute(); on success append to the undo stack and clear the redo
    stack; if execute raises, the appends are never reached, the stacks are
    untouched and the exception propagates (second component true = raised). -/
def execute_command (m : UMState) (c : UMCmd) : UMState × Bool :=
  if c.execOk then ({ undoStack := c :: m.undoStack, redoStack := [] }, false)
  else (m, true)

/-- UndoManager.undo: no-op when the undo stack is empty; otherwise pop, run
    command.undo(), push onto the redo stack on success; on failure the
    command is pushed back onto the undo stack and the exception propagates. -/
def um_undo (m : UMState) : UMState × Bool :=
  match m.undoStack with
  | [] => (m, false)
  | c :: rest =>
    if c.undoOk then ({ undoStack := rest, redoStack := c :: m.redoStack }, false)
    else (m, true)

/-- UndoManager.redo: symmetric to undo. -/
def um_redo (m : UMState) : UMState × Bool :=
  match m.redoStack with
  | [] => (m, false)
  | c :: rest =>
    if c.redoOk then ({ undoStack := c :: m.undoStack, redoStack := rest }, false)
    else (m, true)

/-- One call into the undo manager. -/
inductive UMOp where
  | exec (c : UMCmd)
  | undo
  | redo
  deriving Repr, DecidableEq

/-- Dispatch one undo-manager call. -/
def umStep (m : UMState) (op : UMOp) : UMState × Bool :=
  match op with
  | .exec c => execute_command m c
  | .undo => um_undo m
  | .redo => um_redo m

/-- Run a sequence of undo-manager calls (exceptions are caught by the UI
    caller; the manager object and its stacks persist). -/
def umRun (m : UMState) (ops : List UMOp) : UMState :=
  ops.foldl (fun s op => (umStep s op).1) m

/-- One SQL statement of a migration script: an abstract name standing for its
    schema effect, and whether executing it raises. -/
structure MigStmt where
  name : String
  fails : Bool
  deriving Repr, DecidableEq

/-- The migration-relevant database state: the ledger (`schema_migrations`
    table) and the committed schema effects, in application order. -/
structure MigState where
  schema_migrations : List String
  applied_stmts : List String
  deriving Repr, DecidableEq

/-- `cursor.executescript(sql_script)` as documented for Python sqlite3: any
    pending transaction is first committed implicitly, then the script's
    statements are executed one after another with no implicit transaction
    control, so each successfully executed statement is committed immediately;
    a failing statement raises, leaving the preceding statements applied.
    (In _apply_migrations nothing is pending when executescript runs.) -/
def executescript : MigState → List MigStmt → Bool × MigState
  | st, [] => (true, st)
  | st, s :: rest =>
    if s.fails then (false, st)
    else executescript { st with applied_stmts := st.applied_stmts ++ [s.name] } rest

/-- DataManager._apply_migrations (data_manager.py lines 110-150), after the
    ledger table exists: for each migration file in sorted order whose name is
    not yet in the ledger, run its script via executescript, then INSERT the
    name into the ledger and commit; on a database error, roll back (which can
    only discard the uncommitted ledger INSERT — the script's own statements
    were already committed by executescript) and re-raise, halting before any
    later script.  Result: the name of the failing script, if any, and the
    final database state. -/
def apply_migrations : MigState → List (String × List MigStmt) → Option String × MigState
  | st, [] => (none, st)
  | st, (nm, stmts) :: rest =>
    if strMem st.schema_migrations nm then apply_migrations st rest
    else
      match executescript st stmts with
      | (true, st1) =>
        apply_migrations { st1 with schema_migrations := st1.schema_migrations ++ [nm] } rest
      | (false, st1) => (some nm, st1)

/-! Concrete collection states used by the witnesses, counterexamples and
    failing-input evaluations below. -/

/-- A root topic "p" with body file "fp". -/
def cexTopicP : Topic :=
  { id := "p", parent_id := none, title := "A", text_file_uuid := "fp",
    created_at := 1, updated_at := 1, display_order := some 0 }

/-- A child topic "c" of "p" with body file "fc". -/
def cexTopicC : Topic :=
  { id := "c", parent_id := some "p", title := "B", text_file_uuid := "fc",
    created_at := 2, updated_at := 2, display_order := some 0 }

/-- An extraction recording that "c" was extracted from span [13,17] of "p". -/
def cexExtr : Extraction :=
  { id := "e1", parent_topic_id := "p", child_topic_id := "c", start_char := 13, end_char := 17 }

/-- A collection holding topic "p", its child "c", the extraction between them
    and both body files. -/
def cexSt : Collection :=
  { topics := [cexTopicP, cexTopicC], extractions := [cexExtr],
    files := [("fp", "hello"), ("fc", "this")] }

/-- Executing DeleteMultipleTopicsCommand(["p"]) on cexSt: the captured undo
    data and the state after the cascading delete. -/
def c1Exec : List Topic × Collection := delCmdExecute cexSt ["p"]

/-- The state after undoing that delete command. -/
def c1Undone : Collection := delCmdUndo c1Exec.1 c1Exec.2 9

/-- Topic "a", first child of "p" in the failure scenario for delete_topic. -/
def c3TopicA : Topic :=
  { id := "a", parent_id := some "p", title := "A1", text_file_uuid := "fa",
    created_at := 3, updated_at := 3, display_order := some 0 }

/-- Topic "b", second child of "p" in the failure scenario for delete_topic. -/
def c3TopicB : Topic :=
  { id := "b", parent_id := some "p", title := "B1", text_file_uuid := "fb",
    created_at := 4, updated_at := 4, display_order := some 1 }

/-- A collection with root "p" and children "a", "b", all with body files. -/
def c3St : Collection :=
  { topics := [cexTopicP, c3TopicA, c3TopicB], extractions := [],
    files := [("fp", "1"), ("fa", "2"), ("fb", "3")] }

/-- A collection with "p" and its child "c" (no extractions), for the
    move-under-descendant scenario. -/
def c7St : Collection :=
  { topics := [cexTopicP, cexTopicC], extractions := [], files := [] }

/-- The state after move_topic("p", new_parent := "c", order 0) on c7St. -/
def c7Moved : Collection := (move_topic c7St "p" (some "c") 0 5).2

/-- The row of "p" after the move: reparented under its own child "c". -/
def c7RowP : Topic :=
  { id := "p", parent_id := some "c", title := "A", text_file_uuid := "fp",
    created_at := 1, updated_at := 5, display_order := some 0 }

/-- A root topic "r" at display_order 0. -/
def c8TopicR : Topic :=
  { id := "r", parent_id := none, title := "R", text_file_uuid := "fr",
    created_at := 1, updated_at := 1, display_order := some 0 }

/-- A topic "x" under "r" at display_order 0. -/
def c8TopicX : Topic :=
  { id := "x", parent_id := some "r", title := "X", text_file_uuid := "fx",
    created_at := 2, updated_at := 2, display_order := some 0 }

/-- A collection with root "r" (order 0) and its child "x" (order 0). -/
def c8St : Collection :=
  { topics := [c8TopicR, c8TopicX], extractions := [], files := [] }

/-- An empty collection. -/
def emptyCollection : Collection :=
  { topics := [], extractions := [], files := [] }

/-- create_topic arguments with a body but no explicit title. -/
def c4Args : CreateArgs :=
  { text_content := "Short content for title.", parent_id := none, custom_title := none,
    topic_id := none, text_file_uuid := none, created_at := none, updated_at := none,
    display_order := none }

/-- create_topic arguments for the restore path: explicit topic id "p"
    (which already exists in cexSt, so the INSERT fails) and explicit file
    uuid "fz". -/
def c10Args : CreateArgs :=
  { text_content := "body", parent_id := none, custom_title := some "T",
    topic_id := some "p", text_file_uuid := some "fz", created_at := none, updated_at := none,
    display_order := none }

/-- The same restore arguments but with the file uuid minted by the call. -/
def c10ArgsMinted : CreateArgs :=
  { text_content := "body", parent_id := none, custom_title := some "T",
    topic_id := some "p", text_file_uuid := none, created_at := none, updated_at := none,
    display_order := none }

/-- An empty migration database state. -/
def c6St0 : MigState := { schema_migrations := [], applied_stmts := [] }

/-- Two migration scripts: the first fails at its second statement, the second
    would succeed. -/
def c6Scripts : List (String × List MigStmt) :=
  [("001_a.sql", [{ name := "001-stmt1", fails := false }, { name := "001-stmt2", fails := true }]),
   ("002_b.sql", [{ name := "002-stmt1", fails := false }])]

/-- A command whose execute succeeds, for the stack-discipline witness. -/
def c5CmdOk : UMCmd := { cid := 1, execOk := true, undoOk := true, redoOk := true }

/-- A command whose execute raises, for the stack-discipline witness. -/
def c5CmdBad : UMCmd := { cid := 2, execOk := false, undoOk := true, redoOk := true }

/-- An undo-manager state with one undoable and one redoable command. -/
def c5State : UMState :=
  { undoStack := [{ cid := 3, execOk := true, undoOk := true, redoOk := true }],
    redoStack := [{ cid := 4, execOk := true, undoOk := true, redoOk := true }] }

/-! Helper lemmas. -/

theorem bool_ne_true {b : Bool} (h : ¬ b = true) : b = false := by
  cases b
  · rfl
  · exact absurd rfl h

theorem mem_insertByStart {y e : Extraction} {l : List Extraction} :
    y ∈ insertByStart e l ↔ y = e ∨ y ∈ l := by
  induction l with
  | nil => simp [insertByStart]
  | cons x xs ih =>
    by_cases h : e.start_char ≤ x.start_char
    · simp [insertByStart, h, List.mem_cons]
    · simp [insertByStart, h, List.mem_cons, ih]
      tauto

theorem pairwise_insertByStart {e : Extraction} {l : List Extraction}
    (h : l.Pairwise (fun a b => a.start_char ≤ b.start_char)) :
    (insertByStart e l).Pairwise (fun a b => a.start_char ≤ b.start_char) := by
  induction l with
  | nil => simp [insertByStart]
  | cons x xs ih =>
    rcases List.pairwise_cons.mp h with ⟨hx, hxs⟩
    by_cases hle : e.start_char ≤ x.start_char
    · rw [insertByStart, if_pos hle]
      refine List.pairwise_cons.mpr ⟨?_, h⟩
      intro y hy
      rcases List.mem_cons.mp hy with rfl | hy'
      · exact hle
      · exact le_trans hle (hx y hy')
    · rw [insertByStart, if_neg hle]
      refine List.pairwise_cons.mpr ⟨?_, ih hxs⟩
      intro y hy
      rcases mem_insertByStart.mp hy with rfl | hy'
      · omega
      · exact hx y hy'

theorem pairwise_sortByStart (l : List Extraction) :
    (sortByStart l).Pairwise (fun a b => a.start_char ≤ b.start_char) := by
  induction l with
  | nil => simp [sortByStart]
  | cons x xs ih => exact pairwise_insertByStart ih

theorem mem_sortByStart {y : Extraction} {l : List Extraction} :
    y ∈ sortByStart l ↔ y ∈ l := by
  induction l with
  | nil => simp [sortByStart]
  | cons x xs ih => simp [sortByStart, mem_insertByStart, ih]

theorem fsRead_fsWrite_self (f : List (String × String)) (u c : String) :
    fsRead (fsWrite f u c) u = some c := by
  induction f with
  | nil => simp [fsWrite, fsRead, List.find?]
  | cons kv fs ih =>
    by_cases hk : (kv.1 == u) = true
    · have hany : (kv :: fs).any (fun kv => kv.1 == u) = true := by
        simp [List.any_cons, hk]
      rw [fsWrite, if_pos hany]
      simp only [List.map_cons, if_pos hk]
      simp [fsRead, List.find?, hk]
    · by_cases h2 : fs.any (fun kv => kv.1 == u) = true
      · have hany : (kv :: fs).any (fun kv => kv.1 == u) = true := by
          simp [List.any_cons, h2]
        rw [fsWrite, if_pos hany]
        simp only [List.map_cons, if_neg hk]
        have htail : fsWrite fs u c = fs.map (fun kv => if kv.1 == u then (kv.1, c) else kv) := by
          rw [fsWrite, if_pos h2]
        rw [fsRead, List.find?]
        rw [show ((kv.1 == u) = false) from by simpa using hk]
        rw [← htail, ← fsRead]
        exact ih
      · have hk' : (kv.1 == u) = false := bool_ne_true hk
        have h2' : (fs.any (fun kv => kv.1 == u)) = false := bool_ne_true h2
        have hany : ((kv :: fs).any (fun kv => kv.1 == u)) = false := by
          simp [List.any_cons, hk', h2']
        rw [fsWrite, if_neg (by simp [hany])]
        have htail : fsWrite fs u c = fs ++ [(u, c)] := by
          rw [fsWrite, if_neg (by simp [h2'])]
        rw [List.cons_append, fsRead, List.find?]
        rw [show ((kv.1 == u) = false) from by simpa using hk]
        rw [← htail, ← fsRead]
        exact ih

theorem fsRead_fsRemove_self (f : List (String × String)) (u : String) :
    fsRead (fsRemove f u) u = none := by
  rw [fsRead, fsRemove]
  have h : ((f.filter (fun kv => !(kv.1 == u))).find? (fun kv => kv.1 == u)) = none := by
    rw [List.find?_eq_none]
    intro x hx
    have hfx := List.of_mem_filter hx
    simp at hfx ⊢
    exact hfx
  rw [h]
  rfl

/-! Claim theorems. -/

/-- Claim C9: for every collection state and parent topic id, the sequence
    returned by get_extractions_for_parent is non-decreasing in start_char. -/
theorem claim9_extraction_ordering (st : Collection) (p : String) :
    (get_extractions_for_parent st p).Pairwise (fun a b => a.start_char ≤ b.start_char) := by
  rw [get_extractions_for_parent]
  exact pairwise_sortByStart _

/-- Claim C5: execute_command runs the command; on success it pushes it onto
    the undo stack and clears the redo stack, so any call sequence ending in a
    successful execute_command leaves the redo stack empty; on failure the
    command is not pushed, the error propagates (second component true) and
    both stacks are unchanged. -/
theorem claim5_execute_command_stack_discipline :
    ∀ (m : UMState) (c : UMCmd) (ops : List UMOp),
      (c.execOk = true →
        execute_command m c = ({ undoStack := c :: m.undoStack, redoStack := [] }, false)
        ∧ (umRun m (ops ++ [UMOp.exec c])).redoStack = [])
      ∧ (c.execOk = false → execute_command m c = (m, true)) := by
  intro m c ops
  constructor
  · intro h
    constructor
    · rw [execute_command, if_pos h]
    · rw [umRun, List.foldl_append]
      simp [umStep, execute_command, h]
  · intro h
    rw [execute_command, if_neg (by simp [h])]

theorem claim5_stack_discipline_witness :
    c5CmdOk.execOk = true ∧ c5CmdBad.execOk = false
    ∧ (umRun c5State ([UMOp.undo] ++ [UMOp.exec c5CmdOk])).redoStack = []
    ∧ execute_command c5State c5CmdBad = (c5State, true) :=
  ⟨rfl, rfl,
    ((claim5_execute_command_stack_discipline c5State c5CmdOk [UMOp.undo]).1 rfl).2,
    (claim5_execute_command_stack_discipline c5State c5CmdBad []).2 rfl⟩

/-- Claim C4 (evaluation at the failing input): when no explicit title is
    supplied, create_topic titles the topic "Topic ..." from the clock for
    every clock value; the body-derived title that _generate_initial_title
    would produce (the first non-blank line) is never used. -/
theorem claim4_default_title_is_timestamp :
    ∀ now : Nat,
      (create_topic emptyCollection c4Args "t1" "f1" now).2.topics.map (fun t => t.title)
        = [strftimeTopicTitle now]
      ∧ strftimeTopicTitle now ≠ generate_initial_title "Short content for title."
      ∧ generate_initial_title "Short content for title." = "Short content for title." := by
  intro now
  refine ⟨rfl, ?_, by decide⟩
  intro h
  rw [show generate_initial_title "Short content for title." = "Short content for title."
    from by decide] at h
  rw [strftimeTopicTitle] at h
  rcases hs : toString now with ⟨l⟩
  rw [hs] at h
  have hd : "Topic ".data ++ l = "Short content for title.".data := congrArg String.data h
  have hh := congrArg List.head? hd
  have ht : (some 'T' : Option Char) = some 'S' := hh
  exact absurd ht (by decide)

/-- Claim C6 (evaluation at the failing input): applying a migration script
    whose second statement fails leaves the script's first statement applied
    (committed by executescript) even though the ledger records nothing and an
    error is raised — partial application of the script is observable; the
    later script is not attempted. -/
theorem claim6_partial_migration_observable :
    (apply_migrations c6St0 c6Scripts).1 = some "001_a.sql"
    ∧ (apply_migrations c6St0 c6Scripts).2.applied_stmts = ["001-stmt1"]
    ∧ (apply_migrations c6St0 c6Scripts).2.schema_migrations = [] := by
  decide

/-- Claim C1 (evaluation at the failing input): deleting subtree "p" (which
    owns an extraction and non-empty bodies) through
    DeleteMultipleTopicsCommand and then undoing recreates the topic rows with
    their identical ids, parents, titles and display orders, but the extraction
    record is not recreated and the restored body files are empty — the
    pre-delete state is not restored. -/
theorem claim1_undo_loses_extractions_and_bodies :
    c1Undone.topics.map (fun t => (t.id, t.parent_id, t.title, t.display_order))
      = [("p", none, "A", some 0), ("c", some "p", "B", some 0)]
    ∧ cexSt.extractions = [cexExtr]
    ∧ c1Undone.extractions = []
    ∧ fsRead cexSt.files "fp" = some "hello"
    ∧ fsRead c1Undone.files "fp" = some ""
    ∧ c1Undone ≠ cexSt := by
  decide

/-- Claim C3 counterexample: a cascading delete of "p" that fails while
    deleting child "b" (after child "a" was fully processed) reports failure
    and rolls back the database rows, yet "a"'s body file has been removed from
    disk — so on failure a body file is removed, contradicting the claim. -/
theorem claim3_file_deleted_despite_rollback :
    (delete_topic ["b"] "p" c3St).1 = false
    ∧ fsRead c3St.files "fa" = some "2"
    ∧ fsRead (delete_topic ["b"] "p" c3St).2.files "fa" = none
    ∧ (delete_topic ["b"] "p" c3St).2.topics = c3St.topics := by
  decide

/-- Claim C3 as amended: if any step of the cascading delete fails, the
    database side is rolled back — no topic row and no extraction row is
    removed — but body files removed before the failure stay removed (file
    deletion is interleaved with the transaction, not deferred until commit). -/
theorem claim3_rows_rolled_back_on_failure (failSet : List String) (tid : String)
    (st : Collection) (h : (delete_topic failSet tid st).1 = false) :
    (delete_topic failSet tid st).2.topics = st.topics
    ∧ (delete_topic failSet tid st).2.extractions = st.extractions := by
  rcases hr : recDel (st.topics.length + 1) failSet tid st with ⟨oi, st'⟩
  cases oi with
  | none => simp [delete_topic, hr]
  | some i => simp [delete_topic, hr] at h

theorem claim3_rows_rolled_back_witness :
    (delete_topic ["b"] "p" c3St).1 = false
    ∧ (delete_topic ["b"] "p" c3St).2.extractions = c3St.extractions :=
  ⟨by decide, (claim3_rows_rolled_back_on_failure ["b"] "p" c3St (by decide)).2⟩

/-- Claim C7 counterexample: "c" is a descendant of "p", yet
    move_topic("p", new parent "c") succeeds and reparents "p" under "c",
    after which "p" is its own ancestor — the move is not rejected and
    acyclicity is not preserved. -/
theorem claim7_move_under_descendant_succeeds :
    IsDescendant c7St.topics "p" "c"
    ∧ (move_topic c7St "p" (some "c") 0 5).1 = true
    ∧ get_topic_details c7Moved "p" = some c7RowP
    ∧ IsDescendant c7Moved.topics "p" "p" := by
  refine ⟨?_, by decide, by decide, ?_⟩
  · exact IsDescendant.child cexTopicC "p" (by decide) rfl
  · have h1 : IsDescendant c7Moved.topics "p" "c" :=
      IsDescendant.child cexTopicC "p" (by decide) rfl
    exact IsDescendant.step c7RowP "p" "c" h1 (by decide) rfl

/-- Claim C7 as amended: move_topic performs no ancestry check at all — it
    succeeds for every existing topic and every destination, including a
    destination inside the moved topic's own subtree. -/
theorem claim7_move_never_rejects (st : Collection) (tid : String) (np : Option String)
    (n : Int) (now : Nat) (h : get_topic_details st tid ≠ none) :
    (move_topic st tid np n now).1 = true := by
  rw [get_topic_details] at h
  cases hf : st.topics.find? (fun t => t.id == tid) with
  | none => exact absurd hf h
  | some cur => simp [move_topic, hf]

theorem claim7_move_never_rejects_witness :
    get_topic_details c7St "p" ≠ none ∧ (move_topic c7St "p" (some "c") 0 5).1 = true :=
  ⟨by decide, claim7_move_never_rejects c7St "p" (some "c") 0 5 (by decide)⟩

/-- Claim C8 counterexample: from a well-formed state (distinct ids, distinct
    sibling orders), moving "x" to the root (NULL parent) at display_order 0
    succeeds but opens no slot — the root sibling "r" keeps order 0 — leaving
    two root topics with duplicate display_order keys. -/
theorem claim8_duplicate_orders_at_root :
    c8St.topics.Pairwise (fun a b =>
      a.id ≠ b.id ∧ (a.parent_id = b.parent_id → a.display_order ≠ b.display_order))
    ∧ (move_topic c8St "x" none 0 5).1 = true
    ∧ ¬ siblingOrdersDistinct (move_topic c8St "x" none 0 5).2.topics := by
  refine ⟨by decide, by decide, ?_⟩
  intro h
  exact absurd (h none) (by decide)

/-- Claim C10: when create_topic fails at the INSERT (duplicate topic id) the
    call returns none and no row is added; the freshly written body file is
    removed only when the call minted the file uuid — when the caller supplied
    an explicit text_file_uuid (the restore-on-undo path), the newly written
    body file is left on disk. -/
theorem claim10_create_cleanup_asymmetry (st : Collection) (a : CreateArgs)
    (m1 m2 : String) (now : Nat)
    (hdup : st.topics.any (fun t => t.id == optStrElse a.topic_id m1) = true) :
    (create_topic st a m1 m2 now).1 = none
    ∧ (create_topic st a m1 m2 now).2.topics = st.topics
    ∧ (create_topic st a m1 m2 now).2.extractions = st.extractions
    ∧ (a.text_file_uuid = none →
        fsRead (create_topic st a m1 m2 now).2.files m2 = none)
    ∧ (∀ u, a.text_file_uuid = some u → u ≠ "" →
        fsRead (create_topic st a m1 m2 now).2.files u = some a.text_content) := by
  rw [create_topic]
  simp only [hdup, if_true]
  refine ⟨trivial, trivial, trivial, ?_, ?_⟩
  · intro hu
    rw [hu]
    simp only [optStrElse, pyTruthyStr, Bool.not_false, Bool.and_true,
      fsRead_fsWrite_self, Option.isSome_some, if_true]
    exact fsRead_fsRemove_self _ _
  · intro u hu hne
    rw [hu]
    have hu' : optStrElse (some u) m2 = u := by
      rw [optStrElse, if_neg (by simpa using hne)]
    rw [hu']
    have hfalse : (u == "") = false := by simpa using hne
    simp only [pyTruthyStr, Bool.not_not, hfalse, Bool.and_false]
    rw [if_neg (by simp)]
    exact fsRead_fsWrite_self _ _ _

theorem claim10_create_cleanup_witness :
    cexSt.topics.any (fun t => t.id == optStrElse c10Args.topic_id "m1") = true
    ∧ (create_topic cexSt c10Args "m1" "m2" 0).1 = none
    ∧ fsRead (create_topic cexSt c10Args "m1" "m2" 0).2.files "fz" = some "body"
    ∧ fsRead (create_topic cexSt c10ArgsMinted "m1" "m2" 0).2.files "m2" = none :=
  ⟨by decide,
   (claim10_create_cleanup_asymmetry cexSt c10Args "m1" "m2" 0 (by decide)).1,
   (claim10_create_cleanup_asymmetry cexSt c10Args "m1" "m2" 0 (by decide)).2.2.2.2 "fz" rfl
     (by decide),
   (claim10_create_cleanup_asymmetry cexSt c10ArgsMinted "m1" "m2" 0 (by decide)).2.2.2.1 rfl⟩

/-! The cascading-delete invariants (claim C2). -/

theorem strMem_iff {l : List String} {x : String} : strMem l x = true ↔ x ∈ l := by
  rw [strMem, List.any_eq_true]
  constructor
  · rintro ⟨y, hy, he⟩
    have : x = y := by simpa using he
    exact this ▸ hy
  · intro h
    exact ⟨x, h, by simp⟩

theorem strMem_false_iff {l : List String} {x : String} : strMem l x = false ↔ x ∉ l := by
  constructor
  · intro h hm
    rw [strMem_iff.mpr hm] at h
    cases h
  · intro h
    cases hb : strMem l x
    · rfl
    · exact absurd (strMem_iff.mp hb) h

theorem strMem_append {A B : List String} {x : String} :
    strMem (A ++ B) x = (strMem A x || strMem B x) := by
  simp [strMem, List.any_append]

theorem recDelList_spec
    (f : String → Collection → Option DelInfo × Collection)
    (hf : ∀ c s info s', f c s = (some info, s') →
      s'.topics = s.topics.filter (fun t => !(strMem (info.map Prod.fst) t.id))
      ∧ s'.extractions = s.extractions.filter (fun e =>
          !(strMem (info.map Prod.fst) e.parent_topic_id)
          && !(strMem (info.map Prod.fst) e.child_topic_id))
      ∧ ((s.topics.any (fun t => t.id == c)) = true → c ∈ info.map Prod.fst)
      ∧ (∀ t ∈ s'.topics, ∀ pp, t.parent_id = some pp → pp ∉ info.map Prod.fst)) :
    ∀ (ids : List String) (s : Collection) (info : DelInfo) (s' : Collection),
      recDelList f ids s = (some info, s') →
      s'.topics = s.topics.filter (fun t => !(strMem (info.map Prod.fst) t.id))
      ∧ s'.extractions = s.extractions.filter (fun e =>
          !(strMem (info.map Prod.fst) e.parent_topic_id)
          && !(strMem (info.map Prod.fst) e.child_topic_id))
      ∧ (∀ c ∈ ids, (s'.topics.any (fun t => t.id == c)) = false)
      ∧ (∀ t ∈ s'.topics, ∀ pp, t.parent_id = some pp → pp ∉ info.map Prod.fst) := by
  intro ids
  induction ids with
  | nil =>
    intro s info s' h
    rw [recDelList] at h
    injection h with h1 h2
    injection h1 with h1
    subst h1; subst h2
    refine ⟨by simp [strMem], by simp [strMem], by simp, by simp⟩
  | cons c cs ih =>
    intro s info s' h
    rw [recDelList] at h
    split at h
    · simp at h
    · rename_i i1 s1 hf1
      split at h
      · simp at h
      · rename_i i2 s2 hl
        have hinfo : info = i1 ++ i2 ∧ s' = s2 := by
          injection h with h1 h2
          injection h1 with h1
          exact ⟨h1.symm, h2.symm⟩
        obtain ⟨rfl, rfl⟩ := hinfo
        obtain ⟨A1, A2, A3, A4⟩ := hf c s i1 s1 hf1
        obtain ⟨B1, B2, B3, B4⟩ := ih s1 i2 _ hl
        refine ⟨?_, ?_, ?_, ?_⟩
        · rw [B1, A1, List.filter_filter]
          apply List.filter_congr
          intro x hx
          rw [List.map_append, strMem_append]
          cases h1 : strMem (i1.map Prod.fst) x.id <;>
            cases h2 : strMem (i2.map Prod.fst) x.id <;> rfl
        · rw [B2, A2, List.filter_filter]
          apply List.filter_congr
          intro e he
          rw [List.map_append, strMem_append, strMem_append]
          cases h1 : strMem (i1.map Prod.fst) e.parent_topic_id <;>
            cases h2 : strMem (i2.map Prod.fst) e.parent_topic_id <;>
              cases h3 : strMem (i1.map Prod.fst) e.child_topic_id <;>
                cases h4 : strMem (i2.map Prod.fst) e.child_topic_id <;> rfl
        · intro c' hc'
          rcases List.mem_cons.mp hc' with rfl | hmem
          · have habs1 : (s1.topics.any (fun t => t.id == c')) = false := by
              by_cases hpres : (s.topics.any (fun t => t.id == c')) = true
              · have hin : c' ∈ i1.map Prod.fst := A3 hpres
                rw [A1, List.any_eq_false]
                intro t ht hbeq
                obtain ⟨htm, htf⟩ := List.mem_filter.mp ht
                have hid : t.id = c' := by simpa using hbeq
                have hsm : strMem (i1.map Prod.fst) t.id = true :=
                  strMem_iff.mpr (hid ▸ hin)
                rw [hsm] at htf
                cases htf
              · have habs : (s.topics.any (fun t => t.id == c')) = false := bool_ne_true hpres
                rw [A1, List.any_eq_false]
                rw [List.any_eq_false] at habs
                intro t ht
                exact habs t (List.mem_filter.mp ht).1
            rw [B1, List.any_eq_false]
            rw [List.any_eq_false] at habs1
            intro t ht
            exact habs1 t (List.mem_filter.mp ht).1
          · exact B3 c' hmem
        · intro t ht pp hpp
          rw [List.map_append]
          intro hppmem
          rcases List.mem_append.mp hppmem with hmem | hmem
          · have ht1 : t ∈ s1.topics := by
              rw [B1] at ht
              exact (List.mem_filter.mp ht).1
            exact A4 t ht1 pp hpp hmem
          · exact B4 t ht pp hpp hmem

theorem recDel_spec :
    ∀ (fuel : Nat) (failSet : List String) (tid : String) (st : Collection)
      (info : DelInfo) (st' : Collection),
      recDel fuel failSet tid st = (some info, st') →
      st'.topics = st.topics.filter (fun t => !(strMem (info.map Prod.fst) t.id))
      ∧ st'.extractions = st.extractions.filter (fun e =>
          !(strMem (info.map Prod.fst) e.parent_topic_id)
          && !(strMem (info.map Prod.fst) e.child_topic_id))
      ∧ ((st.topics.any (fun t => t.id == tid)) = true → tid ∈ info.map Prod.fst)
      ∧ (∀ t ∈ st'.topics, ∀ pp, t.parent_id = some pp → pp ∉ info.map Prod.fst) := by
  intro fuel
  induction fuel with
  | zero =>
    intro failSet tid st info st' h
    rw [recDel] at h
    simp at h
  | succ fuel ih =>
    intro failSet tid st info st' h
    simp only [recDel] at h
    split at h
    · rename_i hfind
      have hpair : info = [] ∧ st' = st := by
        injection h with h1 h2
        injection h1 with h1
        exact ⟨h1.symm, h2.symm⟩
      obtain ⟨rfl, rfl⟩ := hpair
      refine ⟨by simp [strMem], by simp [strMem], ?_, by simp⟩
      intro hany
      rw [List.any_eq_true] at hany
      obtain ⟨t, htm, htb⟩ := hany
      rw [List.find?_eq_none] at hfind
      exact absurd htb (hfind t htm)
    · rename_i td hfind
      split at h
      · simp at h
      · rename_i ci st1 hlist
        obtain ⟨L1, L2, L3, L4⟩ :=
          recDelList_spec _ (fun c s i s2 hcs => ih failSet c s i s2 hcs) _ st ci st1 hlist
        split at h
        · simp at h
        · rename_i hfail
          split at h
          · rename_i hany
            have hpair : info = ci ++ [(tid, td.parent_id)] ∧
                st' = { topics := st1.topics.filter (fun t => !(t.id == tid)),
                        extractions := st1.extractions.filter (fun e => !(extrTouches tid e)),
                        files := st1.files.filter (fun kv => !(kv.1 == td.text_file_uuid)) } := by
              injection h with h1 h2
              injection h1 with h1
              exact ⟨h1.symm, h2.symm⟩
            obtain ⟨rfl, rfl⟩ := hpair
            refine ⟨?_, ?_, ?_, ?_⟩
            · rw [L1, List.filter_filter]
              apply List.filter_congr
              intro x hx
              simp only [List.map_append, List.map_cons, List.map_nil]
              rw [strMem_append]
              cases hb1 : (x.id == tid) <;>
                cases hb2 : strMem (ci.map Prod.fst) x.id <;>
                  simp [strMem, hb1, hb2]
            · rw [L2, List.filter_filter]
              apply List.filter_congr
              intro e he
              simp only [List.map_append, List.map_cons, List.map_nil]
              rw [strMem_append, strMem_append]
              cases hb1 : (e.parent_topic_id == tid) <;>
                cases hb2 : (e.child_topic_id == tid) <;>
                  cases hb3 : strMem (ci.map Prod.fst) e.parent_topic_id <;>
                    cases hb4 : strMem (ci.map Prod.fst) e.child_topic_id <;>
                      simp [extrTouches, strMem, hb1, hb2, hb3, hb4]
            · intro _
              simp [List.map_append]
            · intro t ht pp hpp
              simp only [List.map_append, List.map_cons, List.map_nil]
              intro hmem
              rcases List.mem_append.mp hmem with hm | hm
              · have ht1 : t ∈ st1.topics := (List.mem_filter.mp ht).1
                exact L4 t ht1 pp hpp hm
              · have hpt : pp = tid := by simpa using hm
                subst hpt
                have ht1 : t ∈ st1.topics := (List.mem_filter.mp ht).1
                have hts : t ∈ st.topics := by
                  rw [L1] at ht1
                  exact (List.mem_filter.mp ht1).1
                have hchild : t.id ∈
                    (st.topics.filter (fun u => u.parent_id == some pp)).map (fun u => u.id) :=
                  List.mem_map.mpr ⟨t, List.mem_filter.mpr ⟨hts, by simp [hpp]⟩, rfl⟩
                have habs := L3 t.id hchild
                rw [List.any_eq_false] at habs
                exact habs t ht1 (by simp)
          · rename_i hanyne
            have hpair : info = ci ∧
                st' = { topics := st1.topics,
                        extractions := st1.extractions.filter (fun e => !(extrTouches tid e)),
                        files := st1.files } := by
              injection h with h1 h2
              injection h1 with h1
              exact ⟨h1.symm, h2.symm⟩
            obtain ⟨rfl, rfl⟩ := hpair
            have hanyf : (st1.topics.any (fun t => t.id == tid)) = false := bool_ne_true hanyne
            have htdmem : td ∈ st.topics := List.mem_of_find?_eq_some hfind
            have htdid' : td.id = tid := by
              have h0 := List.find?_some hfind
              simpa using h0
            have htid_in : tid ∈ info.map Prod.fst := by
              by_contra hni
              have htd1 : td ∈ st1.topics := by
                rw [L1]
                refine List.mem_filter.mpr ⟨htdmem, ?_⟩
                rw [strMem_false_iff.mpr (htdid' ▸ hni)]
                rfl
              rw [List.any_eq_false] at hanyf
              exact hanyf td htd1 (by simp [htdid'])
            refine ⟨L1, ?_, fun _ => htid_in, L4⟩
            rw [L2, List.filter_filter]
            apply List.filter_congr
            intro e he
            have hp : strMem (info.map Prod.fst) e.parent_topic_id = false →
                (e.parent_topic_id == tid) = false := by
              intro hb
              have := strMem_false_iff.mp hb
              exact beq_eq_false_iff_ne.mpr (fun heq => this (heq ▸ htid_in))
            have hc : strMem (info.map Prod.fst) e.child_topic_id = false →
                (e.child_topic_id == tid) = false := by
              intro hb
              have := strMem_false_iff.mp hb
              exact beq_eq_false_iff_ne.mpr (fun heq => this (heq ▸ htid_in))
            cases hb1 : strMem (info.map Prod.fst) e.parent_topic_id <;>
              cases hb2 : strMem (info.map Prod.fst) e.child_topic_id
            · simp [extrTouches, hb1, hb2, hp hb1, hc hb2]
            · simp [hb1, hb2]
            · simp [hb1, hb2]
            · simp [hb1, hb2]

/-- Claim C2: for every collection state, if delete_topic(T) succeeds (with no
    injected database failures) and T exists, then get_topic_details returns
    not-found for T and for every descendant of T, and no extraction returned
    by get_extractions_for_parent (for any parent key) has T or a descendant of
    T as its parent_topic_id or child_topic_id — every extraction touching a
    removed topic is gone. -/
theorem claim2_cascade_completeness (tid : String) (st st' : Collection)
    (hdel : delete_topic [] tid st = (true, st'))
    (hex : get_topic_details st tid ≠ none) :
    get_topic_details st' tid = none
    ∧ (∀ d, IsDescendant st.topics tid d → get_topic_details st' d = none)
    ∧ (∀ p e, e ∈ get_extractions_for_parent st' p →
        e.parent_topic_id ≠ tid ∧ ¬ IsDescendant st.topics tid e.parent_topic_id
        ∧ e.child_topic_id ≠ tid ∧ ¬ IsDescendant st.topics tid e.child_topic_id) := by
  rcases hr : recDel (st.topics.length + 1) [] tid st with ⟨oi, st2⟩
  cases oi with
  | none => rw [delete_topic, hr] at hdel; simp at hdel
  | some info =>
    have hst' : st' = st2 := by
      rw [delete_topic, hr] at hdel
      injection hdel with h1 h2
      exact h2.symm
    subst hst'
    obtain ⟨L1, L2, L3, L4⟩ := recDel_spec _ _ _ _ _ _ hr
    have hexany : (st.topics.any (fun t => t.id == tid)) = true := by
      rw [get_topic_details] at hex
      rcases hf : st.topics.find? (fun t => t.id == tid) with _ | td
      · exact absurd hf hex
      · have hmem := List.mem_of_find?_eq_some hf
        have hbeq := List.find?_some hf
        exact List.any_eq_true.mpr ⟨td, hmem, hbeq⟩
    have htid : tid ∈ info.map Prod.fst := L3 hexany
    have hdesc0 : ∀ a d, IsDescendant st.topics a d →
        a ∈ info.map Prod.fst → d ∈ info.map Prod.fst := by
      intro a d hd
      induction hd with
      | child t a ht hp =>
        intro ha
        by_contra hnot
        have htmem : t ∈ st'.topics := by
          rw [L1]
          exact List.mem_filter.mpr ⟨ht, by rw [strMem_false_iff.mpr hnot]; rfl⟩
        exact L4 t htmem a hp ha
      | step t a b hab ht hp ihb =>
        intro ha
        by_contra hnot
        have htmem : t ∈ st'.topics := by
          rw [L1]
          exact List.mem_filter.mpr ⟨ht, by rw [strMem_false_iff.mpr hnot]; rfl⟩
        exact L4 t htmem b hp (ihb ha)
    have hdesc : ∀ d, IsDescendant st.topics tid d → d ∈ info.map Prod.fst :=
      fun d hd => hdesc0 tid d hd htid
    have habs : ∀ x, x ∈ info.map Prod.fst → get_topic_details st' x = none := by
      intro x hx
      rw [get_topic_details, List.find?_eq_none]
      intro t ht hbeq
      rw [L1] at ht
      obtain ⟨hts, htf⟩ := List.mem_filter.mp ht
      have hid : t.id = x := by simpa using hbeq
      rw [strMem_iff.mpr (hid ▸ hx)] at htf
      cases htf
    refine ⟨habs tid htid, fun d hd => habs d (hdesc d hd), ?_⟩
    intro p e he
    have he2 : e ∈ st'.extractions := by
      rw [get_extractions_for_parent] at he
      exact (List.mem_filter.mp (mem_sortByStart.mp he)).1
    rw [L2] at he2
    obtain ⟨hes, hef⟩ := List.mem_filter.mp he2
    rw [Bool.and_eq_true] at hef
    obtain ⟨hef1, hef2⟩ := hef
    have hp1 : strMem (info.map Prod.fst) e.parent_topic_id = false := by
      cases hb : strMem (info.map Prod.fst) e.parent_topic_id
      · rfl
      · rw [hb] at hef1; cases hef1
    have hc1 : strMem (info.map Prod.fst) e.child_topic_id = false := by
      cases hb : strMem (info.map Prod.fst) e.child_topic_id
      · rfl
      · rw [hb] at hef2; cases hef2
    have hpnot : e.parent_topic_id ∉ info.map Prod.fst := strMem_false_iff.mp hp1
    have hcnot : e.child_topic_id ∉ info.map Prod.fst := strMem_false_iff.mp hc1
    exact ⟨fun heq => hpnot (heq ▸ htid), fun hdd => hpnot (hdesc _ hdd),
      fun heq => hcnot (heq ▸ htid), fun hdd => hcnot (hdesc _ hdd)⟩

theorem claim2_cascade_witness :
    delete_topic [] "p" cexSt = (true, (delete_topic [] "p" cexSt).2)
    ∧ get_topic_details cexSt "p" ≠ none
    ∧ get_topic_details (delete_topic [] "p" cexSt).2 "p" = none
    ∧ get_topic_details (delete_topic [] "p" cexSt).2 "c" = none :=
  ⟨by decide, by decide,
   (claim2_cascade_completeness "p" cexSt _ (by decide) (by decide)).1,
   (claim2_cascade_completeness "p" cexSt _ (by decide) (by decide)).2.1 "c"
     (IsDescendant.child cexTopicC "p" (by decide) rfl)⟩

/-! Sibling-order preservation for move_topic (claim C8). -/

theorem sqlOrderGe_eq_false {o : Option Int} {n : Int} :
    sqlOrderGe o n = false ↔ ∀ v, o = some v → v < n := by
  cases o with
  | none => simp [sqlOrderGe]
  | some v => simp [sqlOrderGe]

theorem sqlOrderGtParam_eq_false {o p : Option Int} :
    sqlOrderGtParam o p = false ↔ ∀ u d, o = some u → p = some d → u ≤ d := by
  cases o with
  | none => simp [sqlOrderGtParam]
  | some u =>
    cases p with
    | none => simp [sqlOrderGtParam]
    | some d => simp [sqlOrderGtParam]

theorem sqlParentMatch_none {col : Option String} : sqlParentMatch col none = false := rfl

theorem sqlParentMatch_true_iff {col p : Option String} :
    sqlParentMatch col p = true ↔ ∃ w, p = some w ∧ col = some w := by
  cases p with
  | none => simp [sqlParentMatch]
  | some w => simp [sqlParentMatch]

theorem moveUpd_eq {tid : String} {np : Option String} {n : Int} {now : Nat} {x : Topic}
    (h : x.id = tid) :
    moveUpd tid np n now x =
      { x with parent_id := np, display_order := some n, updated_at := now } := by
  simp [moveUpd, h]

theorem moveUpd_ne {tid : String} {np : Option String} {n : Int} {now : Nat} {x : Topic}
    (h : x.id ≠ tid) : moveUpd tid np n now x = x := by
  simp [moveUpd, h]

theorem moveShiftNew_skip_id {tid : String} {np : Option String} {n : Int} {x : Topic}
    (h : x.id = tid) : moveShiftNew tid np n x = x := by
  simp [moveShiftNew, h]

theorem moveShiftNew_skip_par {tid : String} {q : String} {n : Int} {x : Topic}
    (h : x.parent_id ≠ some q) : moveShiftNew tid (some q) n x = x := by
  have hm : sqlParentMatch x.parent_id (some q) = false := by
    simp [sqlParentMatch]
    intro hc
    exact absurd hc h
  simp [moveShiftNew, hm]

theorem moveShiftNew_skip_ord {tid : String} {np : Option String} {n : Int} {x : Topic}
    (h : sqlOrderGe x.display_order n = false) : moveShiftNew tid np n x = x := by
  simp [moveShiftNew, h]

theorem moveShiftNew_bump {tid : String} {q : String} {n : Int} {x : Topic} {v : Int}
    (hpar : x.parent_id = some q) (hid : x.id ≠ tid) (hv : x.display_order = some v)
    (hge : n ≤ v) :
    moveShiftNew tid (some q) n x = { x with display_order := some (v + 1) } := by
  have hm : sqlParentMatch x.parent_id (some q) = true := by
    simp [sqlParentMatch, hpar]
  have hg : sqlOrderGe (some v) n = true := by
    simp [sqlOrderGe]
    omega
  simp [moveShiftNew, hm, hg, hid, hv]

theorem moveShiftOld_skip_par {op : Option String} {od : Option Int} {x : Topic}
    (h : sqlParentMatch x.parent_id op = false) : moveShiftOld op od x = x := by
  simp [moveShiftOld, h]

theorem moveShiftOld_skip_ord {op : Option String} {od : Option Int} {x : Topic}
    (h : sqlOrderGtParam x.display_order od = false) : moveShiftOld op od x = x := by
  simp [moveShiftOld, h]

theorem moveShiftOld_drop {op : Option String} {od : Option Int} {x : Topic} {v : Int}
    (hm : sqlParentMatch x.parent_id op = true) (hgt : sqlOrderGtParam x.display_order od = true)
    (hv : x.display_order = some v) :
    moveShiftOld op od x = { x with display_order := some (v - 1) } := by
  have hgt' : sqlOrderGtParam (some v) od = true := hv ▸ hgt
  simp [moveShiftOld, hm, hgt', hv]

theorem pairwise_sibling (l : List Topic)
    (h : l.Pairwise (fun a b => a.parent_id = b.parent_id → a.display_order ≠ b.display_order)) :
    siblingOrdersDistinct l := by
  intro p
  show ((l.filter (fun t => t.parent_id == p)).map (fun t => t.display_order)).Pairwise
    (fun a b => a ≠ b)
  refine List.Pairwise.map _ (fun a b hab => hab) ?_
  refine List.Pairwise.imp_of_mem ?_ (h.filter _)
  intro a b ha hb hab
  have hpa : a.parent_id = p := by simpa using List.of_mem_filter ha
  have hpb : b.parent_id = p := by simpa using List.of_mem_filter hb
  exact hab (hpa.trans hpb.symm)

theorem sqlOrderGe_eq_true {o : Option Int} {n : Int} :
    sqlOrderGe o n = true ↔ ∃ v, o = some v ∧ n ≤ v := by
  cases o <;> simp [sqlOrderGe]

theorem sqlOrderGtParam_eq_true {o p : Option Int} :
    sqlOrderGtParam o p = true ↔ ∃ v d, o = some v ∧ p = some d ∧ d < v := by
  cases o <;> cases p <;> simp [sqlOrderGtParam]

theorem moveB_desc (tid q : String) (n : Int) (now : Nat) (cur : Topic)
    (hcurid : cur.id = tid) (hold : cur.parent_id ≠ some q)
    (x : Topic) (hx_cur : x.id = tid → x = cur) :
    (x = cur ∧
      moveShiftOld cur.parent_id cur.display_order
        (moveShiftNew tid (some q) n (moveUpd tid (some q) n now x)) =
        { cur with parent_id := some q, display_order := some n, updated_at := now })
    ∨ (x.id ≠ tid ∧ x.parent_id = some q ∧ (∃ v, x.display_order = some v ∧ n ≤ v ∧
        moveShiftOld cur.parent_id cur.display_order
          (moveShiftNew tid (some q) n (moveUpd tid (some q) n now x)) =
          { x with display_order := some (v + 1) }))
    ∨ (x.id ≠ tid ∧ (∃ w, cur.parent_id = some w ∧ x.parent_id = some w) ∧
        (∃ v d, x.display_order = some v ∧ cur.display_order = some d ∧ d < v ∧
        moveShiftOld cur.parent_id cur.display_order
          (moveShiftNew tid (some q) n (moveUpd tid (some q) n now x)) =
          { x with display_order := some (v - 1) }))
    ∨ (x.id ≠ tid
        ∧ (x.parent_id = some q → sqlOrderGe x.display_order n = false)
        ∧ (sqlParentMatch x.parent_id cur.parent_id = true →
            sqlOrderGtParam x.display_order cur.display_order = false)
        ∧ moveShiftOld cur.parent_id cur.display_order
            (moveShiftNew tid (some q) n (moveUpd tid (some q) n now x)) = x) := by
  have hOldSkipQ : ∀ y : Topic, y.parent_id = some q →
      moveShiftOld cur.parent_id cur.display_order y = y := by
    intro y hy
    apply moveShiftOld_skip_par
    cases hc : cur.parent_id with
    | none => rfl
    | some w =>
      have hwq : w ≠ q := by
        intro h
        subst h
        exact hold hc
      simp [sqlParentMatch, hy]
      exact fun h => hwq h.symm
  by_cases hxid : x.id = tid
  · have hxc := hx_cur hxid
    subst hxc
    left
    refine ⟨rfl, ?_⟩
    rw [moveUpd_eq hcurid]
    rw [moveShiftNew_skip_id (by simp [hcurid])]
    exact hOldSkipQ _ (by simp)
  · by_cases hpq : x.parent_id = some q
    · rcases Bool.eq_false_or_eq_true (sqlOrderGe x.display_order n) with hge | hge
      · rcases sqlOrderGe_eq_true.mp hge with ⟨v, hxo, hnv⟩
        right; left
        refine ⟨hxid, hpq, v, hxo, hnv, ?_⟩
        rw [moveUpd_ne hxid, moveShiftNew_bump hpq hxid hxo hnv]
        exact hOldSkipQ _ (by simp [hpq])
      · right; right; right
        refine ⟨hxid, fun _ => hge, ?_, ?_⟩
        · intro hm
          rcases sqlParentMatch_true_iff.mp hm with ⟨w, hcw, hxw⟩
          rw [hpq] at hxw
          have hwq : w = q := by
            injection hxw with h
            exact h.symm
          subst hwq
          exact absurd hcw hold
        · rw [moveUpd_ne hxid, moveShiftNew_skip_ord hge]
          exact hOldSkipQ x hpq
    · have hskipnew : moveShiftNew tid (some q) n x = x := moveShiftNew_skip_par hpq
      rcases Bool.eq_false_or_eq_true (sqlParentMatch x.parent_id cur.parent_id) with hm | hm
      · rcases Bool.eq_false_or_eq_true
            (sqlOrderGtParam x.display_order cur.display_order) with hgt | hgt
        · right; right; left
          rcases sqlParentMatch_true_iff.mp hm with ⟨w, hcw, hxw⟩
          rcases sqlOrderGtParam_eq_true.mp hgt with ⟨v, d, hxo, hco, hdv⟩
          refine ⟨hxid, ⟨w, hcw, hxw⟩, v, d, hxo, hco, hdv, ?_⟩
          rw [moveUpd_ne hxid, hskipnew]
          exact moveShiftOld_drop hm hgt hxo
        · right; right; right
          refine ⟨hxid, fun h => absurd h hpq, fun _ => hgt, ?_⟩
          rw [moveUpd_ne hxid, hskipnew]
          exact moveShiftOld_skip_ord hgt
      · right; right; right
        have himp : sqlParentMatch x.parent_id cur.parent_id = true →
            sqlOrderGtParam x.display_order cur.display_order = false := by
          intro h
          rw [hm] at h
          cases h
        refine ⟨hxid, fun h => absurd h hpq, himp, ?_⟩
        rw [moveUpd_ne hxid, hskipnew]
        exact moveShiftOld_skip_par hm

theorem movePairB (tid q : String) (n : Int) (now : Nat) (cur : Topic)
    (hcurid : cur.id = tid) (hold : cur.parent_id ≠ some q)
    (a b : Topic)
    (hid : a.id ≠ b.id)
    (hord : a.parent_id = b.parent_id → a.display_order ≠ b.display_order)
    (ha_cur : a.id = tid → a = cur) (hb_cur : b.id = tid → b = cur)
    (ha_ord : a ≠ cur → a.parent_id = cur.parent_id → a.display_order ≠ cur.display_order)
    (hb_ord : b ≠ cur → b.parent_id = cur.parent_id → b.display_order ≠ cur.display_order)
    (hpar : (moveShiftOld cur.parent_id cur.display_order
        (moveShiftNew tid (some q) n (moveUpd tid (some q) n now a))).parent_id =
      (moveShiftOld cur.parent_id cur.display_order
        (moveShiftNew tid (some q) n (moveUpd tid (some q) n now b))).parent_id) :
    (moveShiftOld cur.parent_id cur.display_order
        (moveShiftNew tid (some q) n (moveUpd tid (some q) n now a))).display_order ≠
      (moveShiftOld cur.parent_id cur.display_order
        (moveShiftNew tid (some q) n (moveUpd tid (some q) n now b))).display_order := by
  rcases moveB_desc tid q n now cur hcurid hold a ha_cur with
    ⟨haeq, hFa⟩ | ⟨haid, hapq, v1, hao, hnv1, hFa⟩ |
    ⟨haid, ⟨w1, hcw1, haw1⟩, v1, d1, hao, hco1, hdv1, hFa⟩ | ⟨haid, haq, ham, hFa⟩ <;>
  rcases moveB_desc tid q n now cur hcurid hold b hb_cur with
    ⟨hbeq, hFb⟩ | ⟨hbid, hbpq, v2, hbo, hnv2, hFb⟩ |
    ⟨hbid, ⟨w2, hcw2, hbw2⟩, v2, d2, hbo, hco2, hdv2, hFb⟩ | ⟨hbid, hbq, hbm, hFb⟩ <;>
  rw [hFa, hFb] at hpar ⊢
  · exact absurd (show a.id = b.id by rw [haeq, hbeq]) hid
  · intro hcon
    have hcon' : (some n : Option Int) = some (v2 + 1) := hcon
    injection hcon' with h
    omega
  · have hq : (some q : Option String) = some w2 := by
      rw [← hbw2]
      exact hpar
    injection hq with h
    subst h
    exact absurd hcw2 hold
  · have hbpq : b.parent_id = some q := hpar.symm
    have hge := hbq hbpq
    intro hcon
    have hcon' : (some n : Option Int) = b.display_order := hcon
    have hlt := sqlOrderGe_eq_false.mp hge n hcon'.symm
    omega
  · intro hcon
    have hcon' : (some (v1 + 1) : Option Int) = some n := hcon
    injection hcon' with h
    omega
  · have hpar' : a.parent_id = b.parent_id := hpar
    intro hcon
    have hcon' : (some (v1 + 1) : Option Int) = some (v2 + 1) := hcon
    injection hcon' with h
    exact (hord hpar') (by rw [hao, hbo, show v1 = v2 from by omega])
  · have hq : (some q : Option String) = some w2 := by
      rw [← hapq, ← hbw2]
      exact hpar
    injection hq with h
    subst h
    exact absurd hcw2 hold
  · have hpar' : a.parent_id = b.parent_id := hpar
    have hbpq : b.parent_id = some q := by
      rw [← hpar']
      exact hapq
    have hge := hbq hbpq
    intro hcon
    have hcon' : (some (v1 + 1) : Option Int) = b.display_order := hcon
    have hlt := sqlOrderGe_eq_false.mp hge (v1 + 1) hcon'.symm
    omega
  · have hq : (some w1 : Option String) = some q := by
      rw [← haw1]
      exact hpar
    injection hq with h
    subst h
    exact absurd hcw1 hold
  · have hpar' : a.parent_id = b.parent_id := hpar
    have hq : (some w1 : Option String) = some q := by
      rw [← haw1, hpar']
      exact hbpq
    injection hq with h
    subst h
    exact absurd hcw1 hold
  · have hw : w1 = w2 := by
      have h0 : (some w1 : Option String) = some w2 := hcw1.symm.trans hcw2
      injection h0
    subst hw
    have hd : d1 = d2 := by
      have h0 : (some d1 : Option Int) = some d2 := hco1.symm.trans hco2
      injection h0
    subst hd
    have hpar' : a.parent_id = b.parent_id := hpar
    intro hcon
    have hcon' : (some (v1 - 1) : Option Int) = some (v2 - 1) := hcon
    injection hcon' with h
    exact (hord hpar') (by rw [hao, hbo, show v1 = v2 from by omega])
  · have hpar' : a.parent_id = b.parent_id := hpar
    have hbw : b.parent_id = some w1 := by
      rw [← hpar']
      exact haw1
    have hbne : b ≠ cur := fun h => hbid (by rw [h, hcurid])
    have hbcur : b.parent_id = cur.parent_id := by rw [hbw, hcw1]
    have hbo_ne := hb_ord hbne hbcur
    have hm' : sqlParentMatch b.parent_id cur.parent_id = true :=
      sqlParentMatch_true_iff.mpr ⟨w1, hcw1, hbw⟩
    have hgt' := hbm hm'
    intro hcon
    have hcon' : (some (v1 - 1) : Option Int) = b.display_order := hcon
    have hble := sqlOrderGtParam_eq_false.mp hgt' (v1 - 1) d1 hcon'.symm hco1
    have hne2 : v1 - 1 ≠ d1 := by
      intro h
      apply hbo_ne
      rw [← hcon', hco1, h]
    omega
  · have hapq : a.parent_id = some q := hpar
    have hge := haq hapq
    intro hcon
    have hcon' : a.display_order = some n := hcon
    have hlt := sqlOrderGe_eq_false.mp hge n hcon'
    omega
  · have hpar' : a.parent_id = b.parent_id := hpar
    have hapq : a.parent_id = some q := hpar'.trans hbpq
    have hge := haq hapq
    intro hcon
    have hcon' : a.display_order = some (v2 + 1) := hcon
    have hlt := sqlOrderGe_eq_false.mp hge (v2 + 1) hcon'
    omega
  · have hpar' : a.parent_id = b.parent_id := hpar
    have haw : a.parent_id = some w2 := hpar'.trans hbw2
    have hane : a ≠ cur := fun h => haid (by rw [h, hcurid])
    have hacur : a.parent_id = cur.parent_id := by rw [haw, hcw2]
    have hao_ne := ha_ord hane hacur
    have hm' : sqlParentMatch a.parent_id cur.parent_id = true :=
      sqlParentMatch_true_iff.mpr ⟨w2, hcw2, haw⟩
    have hgt' := ham hm'
    intro hcon
    have hcon' : a.display_order = some (v2 - 1) := hcon
    have hale := sqlOrderGtParam_eq_false.mp hgt' (v2 - 1) d2 hcon' hco2
    have hne2 : v2 - 1 ≠ d2 := by
      intro h
      apply hao_ne
      rw [hcon', hco2, h]
    omega
  · exact hord hpar

theorem moveA_desc (tid q : String) (n : Int) (now : Nat) (cur : Topic)
    (hcurid : cur.id = tid)
    (x : Topic) (hx_cur : x.id = tid → x = cur) :
    (x = cur ∧ moveShiftNew tid (some q) n (moveUpd tid (some q) n now x) =
        { cur with parent_id := some q, display_order := some n, updated_at := now })
    ∨ (x.id ≠ tid ∧ x.parent_id = some q ∧ (∃ v, x.display_order = some v ∧ n ≤ v ∧
        moveShiftNew tid (some q) n (moveUpd tid (some q) n now x) =
          { x with display_order := some (v + 1) }))
    ∨ (x.id ≠ tid ∧ (x.parent_id = some q → sqlOrderGe x.display_order n = false)
        ∧ moveShiftNew tid (some q) n (moveUpd tid (some q) n now x) = x) := by
  by_cases hxid : x.id = tid
  · have hxc := hx_cur hxid
    subst hxc
    left
    refine ⟨rfl, ?_⟩
    rw [moveUpd_eq hcurid]
    exact moveShiftNew_skip_id (by simp [hcurid])
  · by_cases hpq : x.parent_id = some q
    · rcases Bool.eq_false_or_eq_true (sqlOrderGe x.display_order n) with hge | hge
      · rcases sqlOrderGe_eq_true.mp hge with ⟨v, hxo, hnv⟩
        right; left
        refine ⟨hxid, hpq, v, hxo, hnv, ?_⟩
        rw [moveUpd_ne hxid]
        exact moveShiftNew_bump hpq hxid hxo hnv
      · right; right
        refine ⟨hxid, fun _ => hge, ?_⟩
        rw [moveUpd_ne hxid]
        exact moveShiftNew_skip_ord hge
    · right; right
      refine ⟨hxid, fun h => absurd h hpq, ?_⟩
      rw [moveUpd_ne hxid]
      exact moveShiftNew_skip_par hpq

theorem movePairA (tid q : String) (n : Int) (now : Nat) (cur : Topic)
    (hcurid : cur.id = tid)
    (a b : Topic)
    (hid : a.id ≠ b.id)
    (hord : a.parent_id = b.parent_id → a.display_order ≠ b.display_order)
    (ha_cur : a.id = tid → a = cur) (hb_cur : b.id = tid → b = cur)
    (hpar : (moveShiftNew tid (some q) n (moveUpd tid (some q) n now a)).parent_id =
      (moveShiftNew tid (some q) n (moveUpd tid (some q) n now b)).parent_id) :
    (moveShiftNew tid (some q) n (moveUpd tid (some q) n now a)).display_order ≠
      (moveShiftNew tid (some q) n (moveUpd tid (some q) n now b)).display_order := by
  rcases moveA_desc tid q n now cur hcurid a ha_cur with
    ⟨haeq, hFa⟩ | ⟨haid, hapq, v1, hao, hnv1, hFa⟩ | ⟨haid, haq, hFa⟩ <;>
  rcases moveA_desc tid q n now cur hcurid b hb_cur with
    ⟨hbeq, hFb⟩ | ⟨hbid, hbpq, v2, hbo, hnv2, hFb⟩ | ⟨hbid, hbq, hFb⟩ <;>
  rw [hFa, hFb] at hpar ⊢
  · exact absurd (show a.id = b.id by rw [haeq, hbeq]) hid
  · intro hcon
    have hcon' : (some n : Option Int) = some (v2 + 1) := hcon
    injection hcon' with h
    omega
  · have hbpq : b.parent_id = some q := hpar.symm
    have hge := hbq hbpq
    intro hcon
    have hcon' : (some n : Option Int) = b.display_order := hcon
    have hlt := sqlOrderGe_eq_false.mp hge n hcon'.symm
    omega
  · intro hcon
    have hcon' : (some (v1 + 1) : Option Int) = some n := hcon
    injection hcon' with h
    omega
  · have hpar' : a.parent_id = b.parent_id := hpar
    intro hcon
    have hcon' : (some (v1 + 1) : Option Int) = some (v2 + 1) := hcon
    injection hcon' with h
    exact (hord hpar') (by rw [hao, hbo, show v1 = v2 from by omega])
  · have hpar' : a.parent_id = b.parent_id := hpar
    have hbpq : b.parent_id = some q := by
      rw [← hpar']
      exact hapq
    have hge := hbq hbpq
    intro hcon
    have hcon' : (some (v1 + 1) : Option Int) = b.display_order := hcon
    have hlt := sqlOrderGe_eq_false.mp hge (v1 + 1) hcon'.symm
    omega
  · have hapq : a.parent_id = some q := hpar
    have hge := haq hapq
    intro hcon
    have hcon' : a.display_order = some n := hcon
    have hlt := sqlOrderGe_eq_false.mp hge n hcon'
    omega
  · have hpar' : a.parent_id = b.parent_id := hpar
    have hapq : a.parent_id = some q := hpar'.trans hbpq
    have hge := haq hapq
    intro hcon
    have hcon' : a.display_order = some (v2 + 1) := hcon
    have hlt := sqlOrderGe_eq_false.mp hge (v2 + 1) hcon'
    omega
  · exact hord hpar

/-- Claim C8 as amended: if the topics table has distinct ids and
    duplicate-free sibling display_order keys, then after a successful
    move_topic whose destination parent is an actual topic id (not the NULL
    root), every parent's children still carry duplicate-free display_order
    keys — the slot is opened at the destination and the gap handling at the
    source never introduces a collision. -/
theorem claim8_distinct_orders_preserved (st : Collection) (tid q : String) (n : Int)
    (now : Nat)
    (hpw : st.topics.Pairwise (fun a b =>
      a.id ≠ b.id ∧ (a.parent_id = b.parent_id → a.display_order ≠ b.display_order))) :
    siblingOrdersDistinct (move_topic st tid (some q) n now).2.topics := by
  have hsym : Symmetric (fun a b : Topic =>
      a.id ≠ b.id ∧ (a.parent_id = b.parent_id → a.display_order ≠ b.display_order)) := by
    intro a b hab
    exact ⟨hab.1.symm, fun h => (hab.2 h.symm).symm⟩
  rcases hf : st.topics.find? (fun t => t.id == tid) with _ | cur
  · simp only [move_topic, hf]
    exact pairwise_sibling _ (hpw.imp (fun hab => hab.2))
  · have hcurmem : cur ∈ st.topics := List.mem_of_find?_eq_some hf
    have hcurid : cur.id = tid := by
      have h0 := List.find?_some hf
      simpa using h0
    have hforall := hpw.forall hsym
    have huniq : ∀ x ∈ st.topics, x.id = tid → x = cur := by
      intro x hx hxid
      by_contra hne
      exact (hforall hx hcurmem hne).1 (hxid.trans hcurid.symm)
    have hcurord : ∀ x ∈ st.topics, x ≠ cur → x.parent_id = cur.parent_id →
        x.display_order ≠ cur.display_order := by
      intro x hx hne hpp
      exact (hforall hx hcurmem hne).2 hpp
    simp only [move_topic, hf]
    by_cases holdp : cur.parent_id ≠ some q
    · rw [if_pos holdp, List.map_map, List.map_map]
      apply pairwise_sibling
      rw [List.pairwise_map]
      refine List.Pairwise.imp_of_mem ?_ hpw
      intro x y hx hy hxy hp
      exact movePairB tid q n now cur hcurid holdp x y hxy.1 hxy.2
        (huniq x hx) (huniq y hy) (hcurord x hx) (hcurord y hy) hp
    · rw [if_neg holdp, List.map_map]
      apply pairwise_sibling
      rw [List.pairwise_map]
      refine List.Pairwise.imp_of_mem ?_ hpw
      intro x y hx hy hxy hp
      exact movePairA tid q n now cur hcurid x y hxy.1 hxy.2
        (huniq x hx) (huniq y hy) hp

theorem claim8_distinct_orders_witness :
    c8St.topics.Pairwise (fun a b =>
      a.id ≠ b.id ∧ (a.parent_id = b.parent_id → a.display_order ≠ b.display_order))
    ∧ siblingOrdersDistinct (move_topic c8St "x" (some "r") 1 5).2.topics :=
  ⟨by decide, claim8_distinct_orders_preserved c8St "x" "r" 1 5 (by decide)⟩
